import Mathlib

/-!
Shallow embedding of the whisp-ws-server signaling core:
`src/modules/RoomManager.js` (room membership registry) and
`src/modules/SignalingHandler.js` (signaling router), with the constants of
`src/constants/index.js`.

The JS `Map` of rooms is modelled as an insertion-ordered association list
(`Map.set` updates in place or appends; `Map.delete` removes; iteration is in
insertion order). The JS `Set` of user ids is modelled as an insertion-ordered
duplicate-free list (`Set.add` appends when absent; `Set.delete` filters).
`new Date()` timestamps are modelled as an opaque `Nat` supplied by the caller.
-/

namespace Whisp

/-- ROOM_CONFIG.MAX_USERS_DEFAULT from src/constants/index.js. -/
def MAX_USERS_DEFAULT : Nat := 2

/-- ERROR_MESSAGES.ROOM_FULL from src/constants/index.js. -/
def ROOM_FULL : String := "Room is full"

/-- SOCKET_EVENTS.JOIN_ERROR event name. -/
def JOIN_ERROR : String := "join-error"

/-- SOCKET_EVENTS.ROOM_CREATED event name. -/
def ROOM_CREATED : String := "room-created"

/-- SOCKET_EVENTS.USER_JOINED event name. -/
def USER_JOINED : String := "user-joined"

/-- SOCKET_EVENTS.USER_LEFT event name. -/
def USER_LEFT : String := "user-left"

/-- SOCKET_EVENTS.OFFER event name. -/
def OFFER : String := "offer"

/-- SOCKET_EVENTS.ANSWER event name. -/
def ANSWER : String := "answer"

/-- SOCKET_EVENTS.ICE_CANDIDATE event name. -/
def ICE_CANDIDATE : String := "ice-candidate"

/-- A room object as built in RoomManager.createRoom: id, users set,
creation timestamp, maximum user capacity. -/
structure Room where
  id : String
  users : List String
  createdAt : Nat
  maxUsers : Nat
deriving Repr, DecidableEq

/-- JS Set.add on a duplicate-free insertion-ordered list: append when absent. -/
def setAdd (l : List String) (x : String) : List String :=
  if x ∈ l then l else l ++ [x]

/-- JS Map.get on the insertion-ordered association list of rooms. -/
def mapGet : List (String × Room) → String → Option Room
  | [], _ => none
  | p :: rest, k => if p.1 = k then some p.2 else mapGet rest k

/-- JS Map.has. -/
def containsKey : List (String × Room) → String → Bool
  | [], _ => false
  | p :: rest, k => if p.1 = k then true else containsKey rest k

/-- JS Map.set: update the entry in place when the key is present, else append.
A JS Map holds at most one entry per key, so updating the first occurrence is
exact. -/
def mapSet : List (String × Room) → String → Room → List (String × Room)
  | [], k, v => [(k, v)]
  | p :: rest, k, v => if p.1 = k then (k, v) :: rest else p :: mapSet rest k v

/-- JS Map.delete: remove the entry for the key. -/
def mapDelete : List (String × Room) → String → List (String × Room)
  | [], _ => []
  | p :: rest, k => if p.1 = k then rest else p :: mapDelete rest k

/-- The RoomManager instance state: `this.rooms`, a Map from roomId to room. -/
structure RoomManager where
  rooms : List (String × Room)
deriving Repr, DecidableEq

/-- The RoomManager as constructed: an empty rooms map. -/
def initRM : RoomManager := ⟨[]⟩

/-- The sanitized room data returned to callers by RoomManager._sanitizeRoom. -/
structure RoomSnapshot where
  id : String
  users : List String
  userCount : Nat
  maxUsers : Nat
  createdAt : Nat
deriving Repr, DecidableEq

/-- RoomManager._sanitizeRoom: the snapshot copy of a room. -/
def sanitizeRoom (room : Room) : RoomSnapshot :=
  { id := room.id
    users := room.users
    userCount := room.users.length
    maxUsers := room.maxUsers
    createdAt := room.createdAt }

/-- RoomManager.createRoom(roomId, userId): if the room is absent, install a
fresh room (empty users, timestamp `now`, default capacity); then add the user
to the (existing or fresh) room and return its sanitized snapshot. There is no
capacity check on this path. -/
def createRoom (rm : RoomManager) (now : Nat) (roomId userId : String) :
    RoomSnapshot × RoomManager :=
  let base : Room :=
    match mapGet rm.rooms roomId with
    | some r => r
    | none => { id := roomId, users := [], createdAt := now, maxUsers := MAX_USERS_DEFAULT }
  let room' : Room := { base with users := setAdd base.users userId }
  (sanitizeRoom room', ⟨mapSet rm.rooms roomId room'⟩)

/-- The three possible returns of RoomManager.joinRoom: `null` when the room is
absent, `\x7b error: ERROR_MESSAGES.ROOM_FULL \x7d` when at capacity, or the
sanitized snapshot on success. -/
inductive JoinResult where
  | notFound : JoinResult
  | roomFull (error : String) : JoinResult
  | ok (snapshot : RoomSnapshot) : JoinResult
deriving Repr, DecidableEq

/-- RoomManager.joinRoom(roomId, userId): null when the room does not exist;
an error object when `users.size >= maxUsers`; otherwise add the user and
return the snapshot. -/
def joinRoom (rm : RoomManager) (roomId userId : String) : JoinResult × RoomManager :=
  match mapGet rm.rooms roomId with
  | none => (JoinResult.notFound, rm)
  | some room =>
    if room.users.length ≥ room.maxUsers then
      (JoinResult.roomFull ROOM_FULL, rm)
    else
      let room' : Room := { room with users := setAdd room.users userId }
      (JoinResult.ok (sanitizeRoom room'), ⟨mapSet rm.rooms roomId room'⟩)

/-- RoomManager.leaveRoom(roomId, userId): null when the room does not exist;
otherwise delete the user from the users set, delete the room and return null
when the set became empty, else return the updated snapshot. The JS function
returns `null` both for a missing room and for a deleted room; both map to
`none` here. -/
def leaveRoom (rm : RoomManager) (roomId userId : String) :
    Option RoomSnapshot × RoomManager :=
  match mapGet rm.rooms roomId with
  | none => (none, rm)
  | some room =>
    let users' := room.users.filter (fun u => u ≠ userId)
    if users'.length = 0 then
      (none, ⟨mapDelete rm.rooms roomId⟩)
    else
      let room' : Room := { room with users := users' }
      (some (sanitizeRoom room'), ⟨mapSet rm.rooms roomId room'⟩)

/-- RoomManager.getRoomUsers(roomId). -/
def getRoomUsers (rm : RoomManager) (roomId : String) : List String :=
  match mapGet rm.rooms roomId with
  | some room => room.users
  | none => []

/-- RoomManager.getUserRoom(userId): first room (in map insertion order) whose
users set contains the user. -/
def findRoomKey : List (String × Room) → String → Option String
  | [], _ => none
  | p :: rest, userId => if userId ∈ p.2.users then some p.1 else findRoomKey rest userId

/-- RoomManager.getUserRoom(userId). -/
def getUserRoom (rm : RoomManager) (userId : String) : Option String :=
  findRoomKey rm.rooms userId

/-- RoomManager.getRoomInfo(roomId). -/
def getRoomInfo (rm : RoomManager) (roomId : String) : Option RoomSnapshot :=
  (mapGet rm.rooms roomId).map sanitizeRoom

/-- One element of RoomManager.getAllRooms(): id, user count, capacity,
creation time, without the member list. -/
structure RoomSummary where
  id : String
  userCount : Nat
  maxUsers : Nat
  createdAt : Nat
deriving Repr, DecidableEq

/-- RoomManager.getAllRooms(). -/
def getAllRooms (rm : RoomManager) : List RoomSummary :=
  rm.rooms.map (fun p =>
    { id := p.2.id
      userCount := p.2.users.length
      maxUsers := p.2.maxUsers
      createdAt := p.2.createdAt })

/-- RoomManager.roomExists(roomId). -/
def roomExists (rm : RoomManager) (roomId : String) : Bool :=
  containsKey rm.rooms roomId

/-- RoomManager.getRoomCount(). -/
def getRoomCount (rm : RoomManager) : Nat :=
  rm.rooms.length

/-- A mutating registry operation, as invoked by the signaling handlers. -/
inductive Op where
  | create (now : Nat) (roomId userId : String) : Op
  | join (roomId userId : String) : Op
  | leave (roomId userId : String) : Op
deriving Repr, DecidableEq

/-- The state transition of one registry operation. -/
def applyOp (rm : RoomManager) : Op → RoomManager
  | Op.create now roomId userId => (createRoom rm now roomId userId).2
  | Op.join roomId userId => (joinRoom rm roomId userId).2
  | Op.leave roomId userId => (leaveRoom rm roomId userId).2

/-- The room a mutating operation names. -/
def Op.roomId : Op → String
  | Op.create _ r _ => r
  | Op.join r _ => r
  | Op.leave r _ => r

/-- Registry states reachable from the freshly constructed RoomManager by any
sequence of mutating operations. -/
inductive Reachable : RoomManager → Prop where
  | init : Reachable initRM
  | step (rm : RoomManager) (op : Op) (h : Reachable rm) : Reachable (applyOp rm op)

/-! ## SignalingHandler -/

/-- The delivery target of one socket.io emit in SignalingHandler:
`toRequester` is `socket.emit` (the requesting connection only);
`toRoomAll r` is `io.to(r).emit` (every connection in the broadcast group `r`,
the sender included); `toRoomExceptSender r` is `socket.to(r).emit` (every
connection in the broadcast group `r` except the sender); `toSocket t` is
`socket.to(t).emit` (the single connection whose personal group is its own id
`t`, never the sender). -/
inductive EmitTarget where
  | toRequester : EmitTarget
  | toRoomAll (roomId : String) : EmitTarget
  | toRoomExceptSender (roomId : String) : EmitTarget
  | toSocket (targetId : String) : EmitTarget
deriving Repr, DecidableEq

/-- The payload objects SignalingHandler emits. WebRTC negotiation payloads
(offer, answer, candidate) are opaque to the router and modelled as strings
carried verbatim. -/
inductive Payload where
  | joinError (error : String) : Payload
  | roomCreated (roomId userId : String) (users : List String) : Payload
  | userJoined (roomId userId : String) (users : List String) : Payload
  | userLeft (userId roomId : String) : Payload
  | offerMsg (offer fromUserId : String) : Payload
  | answerMsg (answer fromUserId : String) : Payload
  | iceMsg (candidate fromUserId : String) : Payload
deriving Repr, DecidableEq

/-- One outbound socket.io emit: target, event name, payload. -/
structure Emit where
  target : EmitTarget
  event : String
  payload : Payload
deriving Repr, DecidableEq

/-- The SignalingHandler instance state: the shared RoomManager plus
`this.userSockets` (per-connection transport registration), modelled as the
duplicate-free list of registered socket ids. -/
structure SignalingState where
  roomManager : RoomManager
  userSockets : List String
deriving Repr, DecidableEq

/-- SignalingHandler.handleConnection: store the socket reference
(`userSockets.set(socket.id, socket)`). -/
def handleConnection (st : SignalingState) (socketId : String) : SignalingState :=
  { st with userSockets := setAdd st.userSockets socketId }

/-- SignalingHandler.handleDisconnection: resolve the socket's room via
getUserRoom; when found, leaveRoom and emit USER_LEFT to the room excluding the
departing socket; in every case delete the socket's transport registration. -/
def handleDisconnection (st : SignalingState) (socketId : String) :
    SignalingState × List Emit :=
  match getUserRoom st.roomManager socketId with
  | some roomId =>
    ({ roomManager := (leaveRoom st.roomManager roomId socketId).2
       userSockets := st.userSockets.filter (fun s => s ≠ socketId) },
     [⟨EmitTarget.toRoomExceptSender roomId, USER_LEFT, Payload.userLeft socketId roomId⟩])
  | none =>
    ({ roomManager := st.roomManager
       userSockets := st.userSockets.filter (fun s => s ≠ socketId) }, [])

/-- The CREATE_ROOM handler in SignalingHandler._registerRoomEvents. Returns
the updated registry, the broadcast groups joined via `socket.join`, and the
emits, in order. When the room exists it attempts joinRoom: on an error object
it emits JOIN_ERROR to the requester and returns; on success it joins the
group and emits USER_JOINED to the whole room. When the room is absent it
createRoom-s it, joins the group, and emits ROOM_CREATED to the requester.
The `notFound` arm is unreachable because the room was just checked to exist. -/
def handleCreateRoom (rm : RoomManager) (now : Nat) (socketId roomId : String) :
    RoomManager × List String × List Emit :=
  if roomExists rm roomId then
    match joinRoom rm roomId socketId with
    | (JoinResult.roomFull e, rm') =>
        (rm', [], [⟨EmitTarget.toRequester, JOIN_ERROR, Payload.joinError e⟩])
    | (JoinResult.ok snap, rm') =>
        (rm', [roomId],
         [⟨EmitTarget.toRoomAll roomId, USER_JOINED,
           Payload.userJoined roomId socketId snap.users⟩])
    | (JoinResult.notFound, rm') => (rm', [], [])
  else
    let res := createRoom rm now roomId socketId
    (res.2, [roomId],
     [⟨EmitTarget.toRequester, ROOM_CREATED,
       Payload.roomCreated res.1.id socketId res.1.users⟩])

/-- The JOIN_ROOM handler in SignalingHandler._registerRoomEvents: joinRoom;
when the result is null (room absent) fall back to createRoom; when it is an
error object emit JOIN_ERROR to the requester and return; on either success
join the broadcast group and emit USER_JOINED to the whole room with the
result's users list. -/
def handleJoinRoom (rm : RoomManager) (now : Nat) (socketId roomId : String) :
    RoomManager × List String × List Emit :=
  match joinRoom rm roomId socketId with
  | (JoinResult.notFound, _) =>
      let res := createRoom rm now roomId socketId
      (res.2, [roomId],
       [⟨EmitTarget.toRoomAll roomId, USER_JOINED,
         Payload.userJoined roomId socketId res.1.users⟩])
  | (JoinResult.roomFull e, rm') =>
      (rm', [], [⟨EmitTarget.toRequester, JOIN_ERROR, Payload.joinError e⟩])
  | (JoinResult.ok snap, rm') =>
      (rm', [roomId],
       [⟨EmitTarget.toRoomAll roomId, USER_JOINED,
         Payload.userJoined roomId socketId snap.users⟩])

/-- SignalingHandler._forwardSignalingMessage: with a truthy targetUserId
(present and non-empty, per JS truthiness) emit to that single connection;
otherwise broadcast to the room excluding the sender. -/
def forwardSignalingMessage (event : String) (data : Payload) (roomId : String)
    (targetUserId : Option String) : Emit :=
  match targetUserId with
  | some t =>
      if t = "" then ⟨EmitTarget.toRoomExceptSender roomId, event, data⟩
      else ⟨EmitTarget.toSocket t, event, data⟩
  | none => ⟨EmitTarget.toRoomExceptSender roomId, event, data⟩

/-- The OFFER handler in SignalingHandler._registerWebRTCEvents: forward
`\x7b offer, fromUserId: socket.id \x7d`; the registry is not touched. -/
def handleOffer (rm : RoomManager) (socketId roomId offer : String)
    (targetUserId : Option String) : RoomManager × List Emit :=
  (rm, [forwardSignalingMessage OFFER (Payload.offerMsg offer socketId) roomId targetUserId])

/-- The ANSWER handler in SignalingHandler._registerWebRTCEvents. -/
def handleAnswer (rm : RoomManager) (socketId roomId answer : String)
    (targetUserId : Option String) : RoomManager × List Emit :=
  (rm, [forwardSignalingMessage ANSWER (Payload.answerMsg answer socketId) roomId targetUserId])

/-- The ICE_CANDIDATE handler in SignalingHandler._registerWebRTCEvents. -/
def handleIceCandidate (rm : RoomManager) (socketId roomId candidate : String)
    (targetUserId : Option String) : RoomManager × List Emit :=
  (rm, [forwardSignalingMessage ICE_CANDIDATE (Payload.iceMsg candidate socketId) roomId targetUserId])

/-- Well-formedness of the rooms map, maintained by every registry operation:
keys are distinct, each room records its own key as id, every stored room is
non-empty, and every stored room carries the default capacity. -/
def RoomsWF (rm : RoomManager) : Prop :=
  (rm.rooms.map Prod.fst).Nodup ∧
  ∀ p ∈ rm.rooms, p.2.id = p.1 ∧ p.2.users ≠ [] ∧ p.2.maxUsers = MAX_USERS_DEFAULT

/-- Every room capacity invariant: member count at most capacity, per room. -/
def CapOK (rm : RoomManager) : Prop :=
  ∀ p ∈ rm.rooms, p.2.users.length ≤ p.2.maxUsers

/-! ## Concrete fixtures used by witnesses and counterexamples -/

/-- A room R at its default capacity: two members. -/
def sampleRoomAB : Room := ⟨"R", ["a", "b"], 0, 2⟩

/-- A registry holding only the full room R. -/
def sampleRM : RoomManager := ⟨[("R", sampleRoomAB)]⟩

/-- The reachable registry produced by one createRoom of member a in room R. -/
def oneMemberRM : RoomManager := (createRoom initRM 0 "R" "a").2

/-- The reachable over-capacity state: three createRoom calls on room r put
three members into a room of capacity two. -/
def overCapRM : RoomManager :=
  (createRoom (createRoom (createRoom initRM 0 "r" "a").2 0 "r" "b").2 0 "r" "c").2

/-! ## Association-list and set lemmas -/

theorem containsKey_eq_isSome (m : List (String × Room)) (k : String) :
    containsKey m k = (mapGet m k).isSome := by
  induction m with
  | nil => rfl
  | cons p rest ih =>
    by_cases h : p.1 = k <;> simp [containsKey, mapGet, h, ih]

theorem mapGet_set_self (m : List (String × Room)) (k : String) (v : Room) :
    mapGet (mapSet m k v) k = some v := by
  induction m with
  | nil => simp [mapSet, mapGet]
  | cons p rest ih =>
    by_cases h : p.1 = k <;> simp [mapSet, mapGet, h, ih]

theorem mapGet_set_ne (m : List (String × Room)) (k k' : String) (v : Room)
    (h : k' ≠ k) : mapGet (mapSet m k v) k' = mapGet m k' := by
  have hne : ¬ k = k' := fun hh => h hh.symm
  induction m with
  | nil => simp [mapSet, mapGet, hne]
  | cons p rest ih =>
    by_cases hp : p.1 = k
    · simp [mapSet, mapGet, hp, hne]
    · simp [mapSet, mapGet, hp, ih]

theorem mem_mapSet (m : List (String × Room)) (k : String) (v : Room)
    (q : String × Room) (h : q ∈ mapSet m k v) : q = (k, v) ∨ q ∈ m := by
  induction m with
  | nil => simpa [mapSet] using h
  | cons p rest ih =>
    by_cases hp : p.1 = k
    · simp only [mapSet, hp, if_pos] at h
      rcases List.mem_cons.mp h with h1 | h1
      · exact Or.inl h1
      · exact Or.inr (List.mem_cons_of_mem _ h1)
    · simp only [mapSet, hp, if_neg, not_false_iff] at h
      rcases List.mem_cons.mp h with h1 | h1
      · exact Or.inr (h1 ▸ List.mem_cons_self _ _)
      · rcases ih h1 with h2 | h2
        · exact Or.inl h2
        · exact Or.inr (List.mem_cons_of_mem _ h2)

theorem mem_keys_mapSet (m : List (String × Room)) (k : String) (v : Room)
    (a : String) (h : a ∈ (mapSet m k v).map Prod.fst) :
    a = k ∨ a ∈ m.map Prod.fst := by
  rcases List.mem_map.mp h with ⟨q, hq, hfst⟩
  rcases mem_mapSet m k v q hq with h1 | h1
  · left; rw [← hfst, h1]
  · right; exact hfst ▸ List.mem_map_of_mem Prod.fst h1

theorem keys_mapSet_nodup (m : List (String × Room)) (k : String) (v : Room)
    (h : (m.map Prod.fst).Nodup) : ((mapSet m k v).map Prod.fst).Nodup := by
  induction m with
  | nil =>
    show (List.map Prod.fst [(k, v)]).Nodup
    exact List.nodup_singleton _
  | cons p rest ih =>
    simp only [List.map_cons, List.nodup_cons] at h
    by_cases hp : p.1 = k
    · simp only [mapSet, hp, if_pos, List.map_cons, List.nodup_cons]
      exact ⟨hp ▸ h.1, h.2⟩
    · simp only [mapSet, hp, if_neg, not_false_iff, List.map_cons, List.nodup_cons]
      refine ⟨fun hmem => ?_, ih h.2⟩
      rcases mem_keys_mapSet rest k v p.1 hmem with h1 | h1
      · exact hp h1
      · exact h.1 h1

theorem mapSet_idem (m : List (String × Room)) (k : String) (v : Room) :
    mapSet (mapSet m k v) k v = mapSet m k v := by
  induction m with
  | nil => simp [mapSet]
  | cons p rest ih =>
    by_cases hp : p.1 = k <;> simp [mapSet, hp, ih]

theorem mapSet_eq_self (m : List (String × Room)) (k : String) (v : Room)
    (h : mapGet m k = some v) : mapSet m k v = m := by
  induction m with
  | nil => simp [mapGet] at h
  | cons p rest ih =>
    by_cases hp : p.1 = k
    · simp only [mapGet, hp, if_pos] at h
      obtain rfl : p.2 = v := by injection h
      simp only [mapSet, hp, if_pos]
      rw [← hp, Prod.mk.eta]
    · simp only [mapGet, hp, if_neg, not_false_iff] at h
      simp [mapSet, hp, ih h]

theorem mapGet_eq_none_of_not_mem_keys (m : List (String × Room)) (k : String)
    (h : k ∉ m.map Prod.fst) : mapGet m k = none := by
  induction m with
  | nil => rfl
  | cons p rest ih =>
    simp only [List.map_cons, List.mem_cons] at h
    push_neg at h
    have hne : ¬ p.1 = k := fun hh => h.1 hh.symm
    simp [mapGet, hne, ih h.2]

theorem mapGet_delete_self (m : List (String × Room)) (k : String)
    (h : (m.map Prod.fst).Nodup) : mapGet (mapDelete m k) k = none := by
  induction m with
  | nil => rfl
  | cons p rest ih =>
    simp only [List.map_cons, List.nodup_cons] at h
    by_cases hp : p.1 = k
    · simp only [mapDelete, hp, if_pos]
      exact mapGet_eq_none_of_not_mem_keys rest k (hp ▸ h.1)
    · simp [mapDelete, mapGet, hp, ih h.2]

theorem mapGet_delete_ne (m : List (String × Room)) (k k' : String)
    (h : k' ≠ k) : mapGet (mapDelete m k) k' = mapGet m k' := by
  have hne : ¬ k = k' := fun hh => h hh.symm
  induction m with
  | nil => rfl
  | cons p rest ih =>
    by_cases hp : p.1 = k
    · simp [mapDelete, mapGet, hp, hne]
    · by_cases hp' : p.1 = k' <;> simp [mapDelete, mapGet, hp, hp', h, ih]

theorem mem_mapDelete (m : List (String × Room)) (k : String)
    (q : String × Room) (h : q ∈ mapDelete m k) : q ∈ m := by
  induction m with
  | nil => simp [mapDelete] at h
  | cons p rest ih =>
    by_cases hp : p.1 = k
    · simp only [mapDelete, hp, if_pos] at h
      exact List.mem_cons_of_mem _ h
    · simp only [mapDelete, hp, if_neg, not_false_iff] at h
      rcases List.mem_cons.mp h with h1 | h1
      · exact h1 ▸ List.mem_cons_self _ _
      · exact List.mem_cons_of_mem _ (ih h1)

theorem keys_mapDelete_sublist (m : List (String × Room)) (k : String) :
    List.Sublist ((mapDelete m k).map Prod.fst) (m.map Prod.fst) := by
  induction m with
  | nil => simp [mapDelete]
  | cons p rest ih =>
    by_cases hp : p.1 = k
    · simp only [mapDelete, hp, if_pos, List.map_cons]
      exact List.sublist_cons_self _ _
    · simp only [mapDelete, hp, if_neg, not_false_iff, List.map_cons]
      exact ih.cons₂ _

theorem mem_mapDelete_key_ne (m : List (String × Room)) (k : String)
    (hnd : (m.map Prod.fst).Nodup) (q : String × Room)
    (h : q ∈ mapDelete m k) : q.1 ≠ k := by
  induction m with
  | nil => simp [mapDelete] at h
  | cons p rest ih =>
    simp only [List.map_cons, List.nodup_cons] at hnd
    by_cases hp : p.1 = k
    · simp only [mapDelete, hp, if_pos] at h
      intro hq
      apply hnd.1
      have hmem : q.1 ∈ List.map Prod.fst rest := List.mem_map_of_mem Prod.fst h
      rwa [hq, ← hp] at hmem
    · simp only [mapDelete, hp, if_neg, not_false_iff] at h
      rcases List.mem_cons.mp h with rfl | h1
      · exact hp
      · exact ih hnd.2 h1

theorem mapGet_some_mem (m : List (String × Room)) (k : String) (v : Room)
    (h : mapGet m k = some v) : (k, v) ∈ m := by
  induction m with
  | nil => simp [mapGet] at h
  | cons p rest ih =>
    by_cases hp : p.1 = k
    · simp only [mapGet, hp, if_pos] at h
      obtain rfl : p.2 = v := by injection h
      exact hp ▸ List.mem_cons_self _ _
    · simp only [mapGet, hp, if_neg, not_false_iff] at h
      exact List.mem_cons_of_mem _ (ih h)

theorem setAdd_mem_self (l : List String) (x : String) : x ∈ setAdd l x := by
  by_cases h : x ∈ l <;> simp [setAdd, h]

theorem setAdd_of_mem (l : List String) (x : String) (h : x ∈ l) :
    setAdd l x = l := by simp [setAdd, h]

theorem setAdd_ne_nil (l : List String) (x : String) : setAdd l x ≠ [] := by
  by_cases h : x ∈ l
  · simp only [setAdd, h, if_pos]
    exact List.ne_nil_of_mem h
  · simp [setAdd, h]

theorem setAdd_length_le (l : List String) (x : String) :
    (setAdd l x).length ≤ l.length + 1 := by
  by_cases h : x ∈ l <;> simp [setAdd, h]

theorem filter_ne_of_not_mem (l : List String) (x : String) (h : x ∉ l) :
    l.filter (fun u => u ≠ x) = l := by
  apply List.filter_eq_self.mpr
  intro a ha
  simp only [ne_eq, decide_not, Bool.not_eq_eq_eq_not, Bool.not_true, decide_eq_false_iff_not]
  exact fun hax => h (hax ▸ ha)

/-! ## Branch lemmas for the registry operations -/

theorem createRoom_exists (rm : RoomManager) (now : Nat) (roomId userId : String)
    (room : Room) (h : mapGet rm.rooms roomId = some room) :
    createRoom rm now roomId userId =
      (sanitizeRoom { room with users := setAdd room.users userId },
       ⟨mapSet rm.rooms roomId { room with users := setAdd room.users userId }⟩) := by
  simp [createRoom, h]

theorem createRoom_missing (rm : RoomManager) (now : Nat) (roomId userId : String)
    (h : mapGet rm.rooms roomId = none) :
    createRoom rm now roomId userId =
      (sanitizeRoom ⟨roomId, [userId], now, MAX_USERS_DEFAULT⟩,
       ⟨mapSet rm.rooms roomId ⟨roomId, [userId], now, MAX_USERS_DEFAULT⟩⟩) := by
  simp [createRoom, h, setAdd]

theorem joinRoom_missing (rm : RoomManager) (roomId userId : String)
    (h : mapGet rm.rooms roomId = none) :
    joinRoom rm roomId userId = (JoinResult.notFound, rm) := by
  simp [joinRoom, h]

theorem joinRoom_atCapacity (rm : RoomManager) (roomId userId : String)
    (room : Room) (h : mapGet rm.rooms roomId = some room)
    (hfull : room.users.length ≥ room.maxUsers) :
    joinRoom rm roomId userId = (JoinResult.roomFull ROOM_FULL, rm) := by
  simp [joinRoom, h, hfull]

theorem joinRoom_ok (rm : RoomManager) (roomId userId : String)
    (room : Room) (h : mapGet rm.rooms roomId = some room)
    (hlt : room.users.length < room.maxUsers) :
    joinRoom rm roomId userId =
      (JoinResult.ok (sanitizeRoom { room with users := setAdd room.users userId }),
       ⟨mapSet rm.rooms roomId { room with users := setAdd room.users userId }⟩) := by
  simp [joinRoom, h, Nat.not_le.mpr hlt]

theorem leaveRoom_missing (rm : RoomManager) (roomId userId : String)
    (h : mapGet rm.rooms roomId = none) :
    leaveRoom rm roomId userId = (none, rm) := by
  simp [leaveRoom, h]

theorem leaveRoom_empties (rm : RoomManager) (roomId userId : String)
    (room : Room) (h : mapGet rm.rooms roomId = some room)
    (hz : (room.users.filter (fun u => u ≠ userId)).length = 0) :
    leaveRoom rm roomId userId = (none, ⟨mapDelete rm.rooms roomId⟩) := by
  simp only [leaveRoom, h]
  rw [if_pos hz]

theorem leaveRoom_stays (rm : RoomManager) (roomId userId : String)
    (room : Room) (h : mapGet rm.rooms roomId = some room)
    (hz : (room.users.filter (fun u => u ≠ userId)).length ≠ 0) :
    leaveRoom rm roomId userId =
      (some (sanitizeRoom { room with users := room.users.filter (fun u => u ≠ userId) }),
       ⟨mapSet rm.rooms roomId { room with users := room.users.filter (fun u => u ≠ userId) }⟩) := by
  simp only [leaveRoom, h]
  rw [if_neg hz]

/-! ## The registry well-formedness invariant -/

theorem wf_applyOp (rm : RoomManager) (op : Op) (h : RoomsWF rm) :
    RoomsWF (applyOp rm op) := by
  obtain ⟨hnd, hmem⟩ := h
  cases op with
  | create now roomId userId =>
    cases hget : mapGet rm.rooms roomId with
    | some base =>
      have e := createRoom_exists rm now roomId userId base hget
      simp only [applyOp, e]
      refine ⟨keys_mapSet_nodup _ _ _ hnd, ?_⟩
      intro p hp
      rcases mem_mapSet _ _ _ _ hp with rfl | hin
      · obtain ⟨hid, _, hmax⟩ := hmem _ (mapGet_some_mem _ _ _ hget)
        exact ⟨hid, setAdd_ne_nil _ _, hmax⟩
      · exact hmem _ hin
    | none =>
      have e := createRoom_missing rm now roomId userId hget
      simp only [applyOp, e]
      refine ⟨keys_mapSet_nodup _ _ _ hnd, ?_⟩
      intro p hp
      rcases mem_mapSet _ _ _ _ hp with rfl | hin
      · exact ⟨rfl, by simp, rfl⟩
      · exact hmem _ hin
  | join roomId userId =>
    cases hget : mapGet rm.rooms roomId with
    | some room =>
      by_cases hfull : room.users.length ≥ room.maxUsers
      · have e := joinRoom_atCapacity rm roomId userId room hget hfull
        simp only [applyOp, e]
        exact ⟨hnd, hmem⟩
      · have e := joinRoom_ok rm roomId userId room hget (Nat.not_le.mp hfull)
        simp only [applyOp, e]
        refine ⟨keys_mapSet_nodup _ _ _ hnd, ?_⟩
        intro p hp
        rcases mem_mapSet _ _ _ _ hp with rfl | hin
        · obtain ⟨hid, _, hmax⟩ := hmem _ (mapGet_some_mem _ _ _ hget)
          exact ⟨hid, setAdd_ne_nil _ _, hmax⟩
        · exact hmem _ hin
    | none =>
      have e := joinRoom_missing rm roomId userId hget
      simp only [applyOp, e]
      exact ⟨hnd, hmem⟩
  | leave roomId userId =>
    cases hget : mapGet rm.rooms roomId with
    | some room =>
      by_cases hz : (room.users.filter (fun u => u ≠ userId)).length = 0
      · have e := leaveRoom_empties rm roomId userId room hget hz
        simp only [applyOp, e]
        refine ⟨(keys_mapDelete_sublist _ _).nodup hnd, ?_⟩
        intro p hp
        exact hmem _ (mem_mapDelete _ _ _ hp)
      · have e := leaveRoom_stays rm roomId userId room hget hz
        simp only [applyOp, e]
        refine ⟨keys_mapSet_nodup _ _ _ hnd, ?_⟩
        intro p hp
        rcases mem_mapSet _ _ _ _ hp with rfl | hin
        · obtain ⟨hid, _, hmax⟩ := hmem _ (mapGet_some_mem _ _ _ hget)
          exact ⟨hid, fun hnil => hz (congrArg List.length hnil), hmax⟩
        · exact hmem _ hin
    | none =>
      have e := leaveRoom_missing rm roomId userId hget
      simp only [applyOp, e]
      exact ⟨hnd, hmem⟩

theorem reachable_wf (rm : RoomManager) (h : Reachable rm) : RoomsWF rm := by
  induction h with
  | init =>
    refine ⟨List.nodup_nil, ?_⟩
    intro p hp
    simp [initRM] at hp
  | step rm op _ ih => exact wf_applyOp rm op ih

/-- createRoom always returns the snapshot of a room that contains the added
member, and the new state stores exactly that room under the requested key. -/
theorem createRoom_spec (rm : RoomManager) (now : Nat) (roomId userId : String) :
    ∃ r1 : Room,
      createRoom rm now roomId userId = (sanitizeRoom r1, ⟨mapSet rm.rooms roomId r1⟩)
      ∧ userId ∈ r1.users := by
  cases hget : mapGet rm.rooms roomId with
  | some base =>
    exact ⟨_, createRoom_exists rm now roomId userId base hget, setAdd_mem_self _ _⟩
  | none =>
    refine ⟨_, createRoom_missing rm now roomId userId hget, ?_⟩
    simp

/-- The users list of the snapshot createRoom returns is the member list the
registry stores for that room afterwards. -/
theorem createRoom_users_current (rm : RoomManager) (now : Nat) (roomId userId : String) :
    (createRoom rm now roomId userId).1.users =
      getRoomUsers (createRoom rm now roomId userId).2 roomId := by
  obtain ⟨r1, e, _⟩ := createRoom_spec rm now roomId userId
  rw [e]
  simp [getRoomUsers, mapGet_set_self, sanitizeRoom]

theorem oneMemberRM_reachable : Reachable oneMemberRM :=
  Reachable.step initRM (Op.create 0 "R" "a") Reachable.init

/-! ## Claim theorems -/

/-- C4: createRoom (the createOrJoin operation) on an existing room adds the
member and returns the snapshot of the updated room with no capacity check:
the hypotheses constrain only existence, never the member count, so it
succeeds even when the room is at or above capacity. Its return type has no
error alternative: it never returns an error. -/
theorem createRoom_unchecked_add (rm : RoomManager) (now : Nat)
    (roomId userId : String) (room : Room)
    (h : mapGet rm.rooms roomId = some room) :
    (createRoom rm now roomId userId).1 =
        sanitizeRoom { room with users := setAdd room.users userId }
    ∧ userId ∈ (createRoom rm now roomId userId).1.users
    ∧ mapGet (createRoom rm now roomId userId).2.rooms roomId =
        some { room with users := setAdd room.users userId } := by
  have e := createRoom_exists rm now roomId userId room h
  refine ⟨by rw [e], ?_, ?_⟩
  · rw [e]
    exact setAdd_mem_self _ _
  · rw [e]
    exact mapGet_set_self _ _ _

theorem createRoom_unchecked_add_witness :
    (createRoom sampleRM 7 "R" "c").1 =
        sanitizeRoom { sampleRoomAB with users := setAdd sampleRoomAB.users "c" }
    ∧ "c" ∈ (createRoom sampleRM 7 "R" "c").1.users
    ∧ mapGet (createRoom sampleRM 7 "R" "c").2.rooms "R" =
        some { sampleRoomAB with users := setAdd sampleRoomAB.users "c" } :=
  createRoom_unchecked_add sampleRM 7 "R" "c" sampleRoomAB (by decide)

/-- C8: createRoom is idempotent in its member: a second call with the same
roomId and member returns a snapshot equal to the first call's snapshot
(same members, count, capacity, id, creation time) and leaves the registry
state exactly as after the first call. -/
theorem createRoom_idempotent (rm : RoomManager) (now now2 : Nat)
    (roomId userId : String) :
    createRoom (createRoom rm now roomId userId).2 now2 roomId userId =
      ((createRoom rm now roomId userId).1, (createRoom rm now roomId userId).2) := by
  obtain ⟨r1, e, hmem⟩ := createRoom_spec rm now roomId userId
  have hget2 : mapGet (createRoom rm now roomId userId).2.rooms roomId = some r1 := by
    rw [e]
    exact mapGet_set_self _ _ _
  have e2 := createRoom_exists (createRoom rm now roomId userId).2 now2 roomId userId r1 hget2
  have hr : ({ r1 with users := setAdd r1.users userId } : Room) = r1 := by
    rw [setAdd_of_mem _ _ hmem]
  rw [e2, hr, e]
  exact Prod.ext_iff.mpr ⟨rfl, congrArg RoomManager.mk (mapSet_idem _ _ _)⟩

/-- C2: a create-room request naming an existing room that is full emits
exactly one notification: a JOIN_ERROR to the requester whose error string is
exactly "Room is full"; the registry is left unchanged (the requester is not
added to the room) and no broadcast group is joined. -/
theorem handleCreateRoom_full_rejects (rm : RoomManager) (now : Nat)
    (socketId roomId : String) (room : Room)
    (h : mapGet rm.rooms roomId = some room)
    (hfull : room.users.length ≥ room.maxUsers) :
    handleCreateRoom rm now socketId roomId =
      (rm, [], [⟨EmitTarget.toRequester, JOIN_ERROR, Payload.joinError "Room is full"⟩]) := by
  have hex : roomExists rm roomId = true := by
    rw [roomExists, containsKey_eq_isSome, h]
    rfl
  have hj := joinRoom_atCapacity rm roomId socketId room h hfull
  simp only [handleCreateRoom, hex, if_pos, hj, ROOM_FULL]

theorem handleCreateRoom_full_rejects_witness :
    handleCreateRoom sampleRM 7 "c" "R" =
      (sampleRM, [], [⟨EmitTarget.toRequester, JOIN_ERROR, Payload.joinError "Room is full"⟩]) :=
  handleCreateRoom_full_rejects sampleRM 7 "c" "R" sampleRoomAB (by decide) (by decide)

/-- C7: an offer, answer, or ice-candidate message carrying a (truthy, i.e.
non-empty) targetMemberId is emitted to that single connection only - the
`toSocket` target denotes socket.io delivery to the one connection whose
personal group is its id, which never includes the sender - with the
negotiation payload carried verbatim plus a fromUserId field equal to the
sender's connection id; the registry state is returned untouched. -/
theorem targeted_relay (rm : RoomManager) (socketId roomId payload t : String)
    (ht : t ≠ "") :
    handleOffer rm socketId roomId payload (some t) =
      (rm, [⟨EmitTarget.toSocket t, OFFER, Payload.offerMsg payload socketId⟩])
    ∧ handleAnswer rm socketId roomId payload (some t) =
      (rm, [⟨EmitTarget.toSocket t, ANSWER, Payload.answerMsg payload socketId⟩])
    ∧ handleIceCandidate rm socketId roomId payload (some t) =
      (rm, [⟨EmitTarget.toSocket t, ICE_CANDIDATE, Payload.iceMsg payload socketId⟩]) := by
  refine ⟨?_, ?_, ?_⟩ <;>
    simp [handleOffer, handleAnswer, handleIceCandidate, forwardSignalingMessage, ht]

theorem targeted_relay_witness :
    handleOffer sampleRM "a" "R" "sdp" (some "b") =
      (sampleRM, [⟨EmitTarget.toSocket "b", OFFER, Payload.offerMsg "sdp" "a"⟩])
    ∧ handleAnswer sampleRM "a" "R" "sdp" (some "b") =
      (sampleRM, [⟨EmitTarget.toSocket "b", ANSWER, Payload.answerMsg "sdp" "a"⟩])
    ∧ handleIceCandidate sampleRM "a" "R" "sdp" (some "b") =
      (sampleRM, [⟨EmitTarget.toSocket "b", ICE_CANDIDATE, Payload.iceMsg "sdp" "a"⟩]) :=
  targeted_relay sampleRM "a" "R" "sdp" "b" (by decide)

/-- C6: on a transport disconnection the router resolves the socket's room via
getUserRoom; when a room is found it leaves that room and emits exactly one
USER_LEFT to the room's broadcast group excluding the departing socket; when no
room is found it emits nothing; and in both cases the socket's transport
registration is removed from userSockets unconditionally. -/
theorem handleDisconnection_spec (st : SignalingState) (socketId : String) :
    (∀ roomId, getUserRoom st.roomManager socketId = some roomId →
      handleDisconnection st socketId =
        ({ roomManager := (leaveRoom st.roomManager roomId socketId).2
           userSockets := st.userSockets.filter (fun s => s ≠ socketId) },
         [⟨EmitTarget.toRoomExceptSender roomId, USER_LEFT, Payload.userLeft socketId roomId⟩]))
    ∧ (getUserRoom st.roomManager socketId = none →
      handleDisconnection st socketId =
        ({ roomManager := st.roomManager
           userSockets := st.userSockets.filter (fun s => s ≠ socketId) }, []))
    ∧ (handleDisconnection st socketId).1.userSockets =
        st.userSockets.filter (fun s => s ≠ socketId) := by
  refine ⟨?_, ?_, ?_⟩
  · intro roomId h
    simp [handleDisconnection, h]
  · intro h
    simp [handleDisconnection, h]
  · cases h : getUserRoom st.roomManager socketId <;> simp [handleDisconnection, h]

theorem handleDisconnection_spec_witness :
    handleDisconnection ⟨oneMemberRM, ["a", "x"]⟩ "a" =
      ({ roomManager := (leaveRoom oneMemberRM "R" "a").2
         userSockets := (["a", "x"] : List String).filter (fun s => s ≠ "a") },
       [⟨EmitTarget.toRoomExceptSender "R", USER_LEFT, Payload.userLeft "a" "R"⟩]) :=
  (handleDisconnection_spec ⟨oneMemberRM, ["a", "x"]⟩ "a").1 "R" (by decide)

/-- joinRoom returns exactly one of three shapes: null with the state
unchanged, the Full error with the state unchanged, or a success snapshot. -/
theorem joinRoom_cases (rm : RoomManager) (roomId userId : String) :
    joinRoom rm roomId userId = (JoinResult.notFound, rm)
    ∨ joinRoom rm roomId userId = (JoinResult.roomFull ROOM_FULL, rm)
    ∨ ∃ snap rm', joinRoom rm roomId userId = (JoinResult.ok snap, rm') := by
  cases hget : mapGet rm.rooms roomId with
  | none => exact Or.inl (joinRoom_missing _ _ _ hget)
  | some room =>
    by_cases hfull : room.users.length ≥ room.maxUsers
    · exact Or.inr (Or.inl (joinRoom_atCapacity _ _ _ _ hget hfull))
    · exact Or.inr (Or.inr ⟨_, _, joinRoom_ok _ _ _ _ hget (Nat.not_le.mp hfull)⟩)

/-- The users list of a successful joinRoom snapshot is the member list the
registry stores for that room afterwards. -/
theorem joinRoom_ok_users_current (rm : RoomManager) (roomId userId : String)
    (snap : RoomSnapshot) (h : (joinRoom rm roomId userId).1 = JoinResult.ok snap) :
    snap.users = getRoomUsers (joinRoom rm roomId userId).2 roomId := by
  cases hget : mapGet rm.rooms roomId with
  | none =>
    rw [joinRoom_missing _ _ _ hget] at h
    simp at h
  | some room =>
    by_cases hfull : room.users.length ≥ room.maxUsers
    · rw [joinRoom_atCapacity _ _ _ _ hget hfull] at h
      simp at h
    · have e := joinRoom_ok rm roomId userId room hget (Nat.not_le.mp hfull)
      rw [e] at h
      simp only at h
      injection h with h
      rw [e, ← h]
      simp [getRoomUsers, mapGet_set_self, sanitizeRoom]

/-- C5: a join-room request calls joinRoom; a null result (room absent) falls
back to createRoom, so NotFound is never surfaced; on either success the
router joins the broadcast group for the room and emits one USER_JOINED to
the whole room carrying the member list the registry currently stores for the
room; every emit of this handler is either such a USER_JOINED or the
capacity JOIN_ERROR "Room is full". -/
theorem handleJoinRoom_spec (rm : RoomManager) (now : Nat) (socketId roomId : String) :
    ((joinRoom rm roomId socketId).1 = JoinResult.notFound →
      handleJoinRoom rm now socketId roomId =
        ((createRoom rm now roomId socketId).2, [roomId],
         [⟨EmitTarget.toRoomAll roomId, USER_JOINED,
           Payload.userJoined roomId socketId
             (getRoomUsers (createRoom rm now roomId socketId).2 roomId)⟩]))
    ∧ (∀ snap, (joinRoom rm roomId socketId).1 = JoinResult.ok snap →
      handleJoinRoom rm now socketId roomId =
        ((joinRoom rm roomId socketId).2, [roomId],
         [⟨EmitTarget.toRoomAll roomId, USER_JOINED,
           Payload.userJoined roomId socketId
             (getRoomUsers (joinRoom rm roomId socketId).2 roomId)⟩]))
    ∧ (∀ e ∈ (handleJoinRoom rm now socketId roomId).2.2,
        e.event = USER_JOINED
        ∨ (e.event = JOIN_ERROR ∧ e.payload = Payload.joinError "Room is full")) := by
  refine ⟨?_, ?_, ?_⟩
  · intro h
    rcases joinRoom_cases rm roomId socketId with hj | hj | ⟨s, rm', hj⟩
    · simp only [handleJoinRoom, hj]
      rw [← createRoom_users_current]
    · rw [hj] at h
      simp at h
    · rw [hj] at h
      simp at h
  · intro snap h
    rcases joinRoom_cases rm roomId socketId with hj | hj | ⟨s, rm', hj⟩
    · rw [hj] at h
      simp at h
    · rw [hj] at h
      simp at h
    · have husers := joinRoom_ok_users_current rm roomId socketId snap h
      rw [hj] at h
      simp only at h
      injection h with h
      subst h
      rw [← husers]
      simp only [handleJoinRoom, hj]
  · intro e he
    rcases joinRoom_cases rm roomId socketId with hj | hj | ⟨s, rm', hj⟩ <;>
      simp only [handleJoinRoom, hj] at he <;> simp at he <;> subst he
    · exact Or.inl rfl
    · exact Or.inr ⟨rfl, rfl⟩
    · exact Or.inl rfl

theorem handleJoinRoom_spec_witness :
    handleJoinRoom initRM 0 "a" "R" =
      ((createRoom initRM 0 "R" "a").2, ["R"],
       [⟨EmitTarget.toRoomAll "R", USER_JOINED,
         Payload.userJoined "R" "a" (getRoomUsers (createRoom initRM 0 "R" "a").2 "R")⟩]) :=
  (handleJoinRoom_spec initRM 0 "a" "R").1 (by decide)

/-- C9: a leave naming an existing room and a userId that is not one of its
members is a no-op that never errors: it returns the unchanged room's snapshot
and leaves the registry state exactly as it was, so the room is not deleted
(in a reachable state the room is non-empty, and removing a non-member keeps
it non-empty). -/
theorem leaveRoom_nonmember_noop (rm : RoomManager) (h : Reachable rm)
    (roomId userId : String) (room : Room)
    (hget : mapGet rm.rooms roomId = some room)
    (hni : userId ∉ room.users) :
    leaveRoom rm roomId userId = (some (sanitizeRoom room), rm) := by
  obtain ⟨_, hmem⟩ := reachable_wf rm h
  obtain ⟨_, hne, _⟩ := hmem _ (mapGet_some_mem _ _ _ hget)
  have hf : room.users.filter (fun u => u ≠ userId) = room.users :=
    filter_ne_of_not_mem _ _ hni
  have hz : (room.users.filter (fun u => u ≠ userId)).length ≠ 0 := by
    rw [hf]
    intro h0
    exact hne (List.length_eq_zero.mp h0)
  have e := leaveRoom_stays rm roomId userId room hget hz
  rw [e]
  have hroom : ({ room with users := room.users.filter (fun u => u ≠ userId) } : Room) = room := by
    rw [hf]
  rw [hroom, mapSet_eq_self _ _ _ hget]

theorem leaveRoom_nonmember_noop_witness :
    leaveRoom oneMemberRM "R" "b" = (some (sanitizeRoom ⟨"R", ["a"], 0, 2⟩), oneMemberRM) :=
  leaveRoom_nonmember_noop oneMemberRM oneMemberRM_reachable "R" "b"
    ⟨"R", ["a"], 0, 2⟩ (by decide) (by decide)

/-- C3: in every reachable registry state no stored room is empty; and a leave
on an existing room whose member removal empties it deletes the room within
that same leave call and reports deletion by returning null: immediately
afterwards roomExists is false and getAllRooms carries no summary with that
room's id. -/
theorem empty_room_never_stored (rm : RoomManager) (h : Reachable rm)
    (roomId userId : String) :
    (∀ p ∈ rm.rooms, p.2.users ≠ [])
    ∧ (∀ room, mapGet rm.rooms roomId = some room →
        room.users.filter (fun u => u ≠ userId) = [] →
        leaveRoom rm roomId userId = (none, ⟨mapDelete rm.rooms roomId⟩)
        ∧ roomExists (leaveRoom rm roomId userId).2 roomId = false
        ∧ ∀ s ∈ getAllRooms (leaveRoom rm roomId userId).2, s.id ≠ roomId) := by
  obtain ⟨hnd, hmem⟩ := reachable_wf rm h
  refine ⟨fun p hp => (hmem p hp).2.1, ?_⟩
  intro room hget hempty
  have hz : (room.users.filter (fun u => u ≠ userId)).length = 0 :=
    congrArg List.length hempty
  have e := leaveRoom_empties rm roomId userId room hget hz
  refine ⟨e, ?_, ?_⟩
  · rw [e]
    show containsKey (mapDelete rm.rooms roomId) roomId = false
    rw [containsKey_eq_isSome, mapGet_delete_self _ _ hnd]
    rfl
  · intro s hs
    rw [e] at hs
    simp only [getAllRooms] at hs
    rcases List.mem_map.mp hs with ⟨p, hp, rfl⟩
    have hkey : p.1 ≠ roomId := mem_mapDelete_key_ne _ _ hnd p hp
    have hid : p.2.id = p.1 := (hmem p (mem_mapDelete _ _ _ hp)).1
    show p.2.id ≠ roomId
    rw [hid]
    exact hkey

theorem empty_room_never_stored_witness :
    leaveRoom oneMemberRM "R" "a" = (none, ⟨mapDelete oneMemberRM.rooms "R"⟩)
    ∧ roomExists (leaveRoom oneMemberRM "R" "a").2 "R" = false
    ∧ ∀ s ∈ getAllRooms (leaveRoom oneMemberRM "R" "a").2, s.id ≠ "R" :=
  (empty_room_never_stored oneMemberRM oneMemberRM_reachable "R" "a").2
    ⟨"R", ["a"], 0, 2⟩ (by decide) (by decide)

/-- Every mutating operation leaves the rooms map unchanged, rewrites the
named room's entry with a room of identical id, capacity and creation time,
or deletes the named room's entry. -/
theorem applyOp_rooms_shape (rm : RoomManager) (op : Op) :
    (applyOp rm op).rooms = rm.rooms
    ∨ (∃ v : Room, (applyOp rm op).rooms = mapSet rm.rooms op.roomId v
        ∧ ((∃ room, mapGet rm.rooms op.roomId = some room ∧ v.id = room.id
              ∧ v.maxUsers = room.maxUsers ∧ v.createdAt = room.createdAt)
           ∨ mapGet rm.rooms op.roomId = none))
    ∨ (applyOp rm op).rooms = mapDelete rm.rooms op.roomId := by
  cases op with
  | create now roomId userId =>
    cases hget : mapGet rm.rooms roomId with
    | some base =>
      have e := createRoom_exists rm now roomId userId base hget
      exact Or.inr (Or.inl ⟨{ base with users := setAdd base.users userId },
        congrArg (fun x => x.2.rooms) e, Or.inl ⟨base, hget, rfl, rfl, rfl⟩⟩)
    | none =>
      have e := createRoom_missing rm now roomId userId hget
      exact Or.inr (Or.inl ⟨⟨roomId, [userId], now, MAX_USERS_DEFAULT⟩,
        congrArg (fun x => x.2.rooms) e, Or.inr hget⟩)
  | join roomId userId =>
    cases hget : mapGet rm.rooms roomId with
    | some room =>
      by_cases hfull : room.users.length ≥ room.maxUsers
      · have e := joinRoom_atCapacity rm roomId userId room hget hfull
        exact Or.inl (congrArg (fun x => x.2.rooms) e)
      · have e := joinRoom_ok rm roomId userId room hget (Nat.not_le.mp hfull)
        exact Or.inr (Or.inl ⟨{ room with users := setAdd room.users userId },
          congrArg (fun x => x.2.rooms) e, Or.inl ⟨room, hget, rfl, rfl, rfl⟩⟩)
    | none =>
      have e := joinRoom_missing rm roomId userId hget
      exact Or.inl (congrArg (fun x => x.2.rooms) e)
  | leave roomId userId =>
    cases hget : mapGet rm.rooms roomId with
    | some room =>
      by_cases hz : (room.users.filter (fun u => u ≠ userId)).length = 0
      · have e := leaveRoom_empties rm roomId userId room hget hz
        exact Or.inr (Or.inr (congrArg (fun x => x.2.rooms) e))
      · have e := leaveRoom_stays rm roomId userId room hget hz
        exact Or.inr (Or.inl ⟨{ room with users := room.users.filter (fun u => u ≠ userId) },
          congrArg (fun x => x.2.rooms) e, Or.inl ⟨room, hget, rfl, rfl, rfl⟩⟩)
    | none =>
      have e := leaveRoom_missing rm roomId userId hget
      exact Or.inl (congrArg (fun x => x.2.rooms) e)

/-- C10: each mutating registry operation (createRoom, joinRoom, leaveRoom)
modifies at most the entry of the room it names and leaves every other room's
entry untouched; a surviving room keeps its id, capacity (maxUsers) and
creation timestamp across any operation; in every reachable state every
stored room's capacity is the configured default MAX_USERS_DEFAULT, which
equals 2. -/
theorem registry_frame (rm : RoomManager) (op : Op) (h : Reachable rm) :
    (∀ k, k ≠ op.roomId → mapGet (applyOp rm op).rooms k = mapGet rm.rooms k)
    ∧ (∀ k room room', mapGet rm.rooms k = some room →
        mapGet (applyOp rm op).rooms k = some room' →
        room'.id = room.id ∧ room'.maxUsers = room.maxUsers
          ∧ room'.createdAt = room.createdAt)
    ∧ (∀ p ∈ rm.rooms, p.2.maxUsers = MAX_USERS_DEFAULT)
    ∧ MAX_USERS_DEFAULT = 2 := by
  obtain ⟨hnd, hmem⟩ := reachable_wf rm h
  have hframe : ∀ k, k ≠ op.roomId →
      mapGet (applyOp rm op).rooms k = mapGet rm.rooms k := by
    intro k hk
    rcases applyOp_rooms_shape rm op with hs | ⟨v, hs, _⟩ | hs
    · rw [hs]
    · rw [hs, mapGet_set_ne _ _ _ _ hk]
    · rw [hs, mapGet_delete_ne _ _ _ hk]
  refine ⟨hframe, ?_, fun p hp => (hmem p hp).2.2, rfl⟩
  intro k room room' h1 h2
  by_cases hk : k = op.roomId
  · subst hk
    rcases applyOp_rooms_shape rm op with hs | ⟨v, hs, hv | hv⟩ | hs
    · rw [hs, h1] at h2
      obtain rfl : room = room' := by injection h2
      exact ⟨rfl, rfl, rfl⟩
    · obtain ⟨room0, hget0, hvid, hvmax, hvtime⟩ := hv
      rw [h1] at hget0
      obtain rfl : room0 = room := by injection hget0 with hh; exact hh.symm
      rw [hs, mapGet_set_self] at h2
      obtain rfl : v = room' := by injection h2
      exact ⟨hvid, hvmax, hvtime⟩
    · rw [h1] at hv
      exact absurd hv (by simp)
    · rw [hs, mapGet_delete_self _ _ hnd] at h2
      exact absurd h2 (by simp)
  · rw [hframe k hk, h1] at h2
    obtain rfl : room = room' := by injection h2
    exact ⟨rfl, rfl, rfl⟩

theorem registry_frame_witness :
    mapGet (applyOp oneMemberRM (Op.create 1 "S" "b")).rooms "R" =
      mapGet oneMemberRM.rooms "R" :=
  (registry_frame oneMemberRM (Op.create 1 "S" "b") oneMemberRM_reachable).1 "R" (by decide)

/-- C1 (amended): joinRoom preserves the per-room capacity invariant - when
every room satisfies member count ≤ capacity before the join, every room still
does after it - and a join on a room whose member count is at or above
capacity returns the Full error "Room is full" with the registry, hence that
room's membership, unchanged. The original quantification over all reachable
states fails: createRoom's unchecked path can push a room over capacity and a
join leaves such a room over capacity (see the counterexample). -/
theorem joinRoom_capacity (rm : RoomManager) (roomId userId : String) :
    (CapOK rm → CapOK (joinRoom rm roomId userId).2)
    ∧ (∀ room, mapGet rm.rooms roomId = some room →
        room.users.length ≥ room.maxUsers →
        joinRoom rm roomId userId = (JoinResult.roomFull "Room is full", rm)) := by
  constructor
  · intro hcap
    cases hget : mapGet rm.rooms roomId with
    | none =>
      rw [joinRoom_missing _ _ _ hget]
      exact hcap
    | some room =>
      by_cases hfull : room.users.length ≥ room.maxUsers
      · rw [joinRoom_atCapacity _ _ _ _ hget hfull]
        exact hcap
      · have hlt := Nat.not_le.mp hfull
        rw [joinRoom_ok _ _ _ _ hget hlt]
        intro p hp
        rcases mem_mapSet _ _ _ _ hp with rfl | hin
        · show (setAdd room.users userId).length ≤ room.maxUsers
          calc (setAdd room.users userId).length
              ≤ room.users.length + 1 := setAdd_length_le _ _
            _ ≤ room.maxUsers := hlt
        · exact hcap p hin
  · intro room hget hfull
    exact joinRoom_atCapacity _ _ _ _ hget hfull

theorem joinRoom_capacity_witness :
    joinRoom sampleRM "R" "c" = (JoinResult.roomFull "Room is full", sampleRM) :=
  (joinRoom_capacity sampleRM "R" "c").2 sampleRoomAB (by decide) (by decide)

/-- C1 counterexample: a registry state reached immediately after a joinRoom
call in which room r holds 3 members against capacity 2, so it is false that
after every join call every room in every reachable registry state satisfies
member count ≤ capacity. -/
theorem joinRoom_capacity_cex :
    Reachable (joinRoom overCapRM "r" "d").2
    ∧ (mapGet (joinRoom overCapRM "r" "d").2.rooms "r").map
        (fun room => room.users.length) = some 3
    ∧ (mapGet (joinRoom overCapRM "r" "d").2.rooms "r").map Room.maxUsers = some 2
    ∧ ¬ CapOK (joinRoom overCapRM "r" "d").2 := by
  refine ⟨?_, by decide, by decide, ?_⟩
  · exact Reachable.step _ (Op.join "r" "d")
      (Reachable.step _ (Op.create 0 "r" "c")
        (Reachable.step _ (Op.create 0 "r" "b")
          (Reachable.step _ (Op.create 0 "r" "a") Reachable.init)))
  · intro hcap
    exact absurd (hcap ("r", ⟨"r", ["a", "b", "c"], 0, 2⟩) (by decide)) (by decide)

end Whisp
